import Mathlib

/-!
Verification of the realtime voice-assistant session core.

The development shallowly embeds the parts of the program the properties
talk about: the PCM16 sample encoder and decoder of audioUtils.ts, the
playback scheduling loop, transcript accumulation, tool-call routing,
close and disconnect handling of the main component, and the CSV export
of exportUtils.  Machine floats are modelled as rationals; the JavaScript
store into an Int16Array is modelled as truncation toward zero, which is
the ToInt16 conversion on in-range values.  The byte packing and base64
transport of an Int16Array round-trips through platform builtins that are
mutually inverse, so the model keeps the 16-bit integer values themselves.
State updates performed through the framework setters are modelled as
immediate assignments.
-/

/-- Connection lifecycle states, from types.ts. -/
inductive ConnectionState
  | DISCONNECTED
  | CONNECTING
  | CONNECTED
  | ERROR
deriving DecidableEq, Repr

/-- Clamp a sample to the range from -1 to 1, as in createBlob. -/
def clampSample (x : ℚ) : ℚ := max (-1) (min 1 x)

/-- Truncation toward zero: the conversion JavaScript applies when a number
is stored into an Int16Array slot, restricted to in-range values. -/
def truncQ (q : ℚ) : ℤ := if 0 ≤ q then ⌊q⌋ else ⌈q⌉

/-- One sample of createBlob (audioUtils.ts, lines 5 to 9): clamp, then scale
negative samples by 0x8000 = 32768 and nonnegative samples by
0x7FFF = 32767, storing the product as a 16-bit integer. -/
def encodeSample (x : ℚ) : ℤ :=
  if clampSample x < 0 then truncQ (clampSample x * 32768)
  else truncQ (clampSample x * 32767)

/-- createBlob on a whole frame, at the level of 16-bit sample values. -/
def createBlob (data : List ℚ) : List ℤ := data.map encodeSample

/-- One sample of decodeAudioData (audioUtils.ts, line 51): a 16-bit value
is normalized by dividing by 32768.0. -/
def decodeSample (v : ℤ) : ℚ := (v : ℚ) / 32768

/-- decodeAudioData on a mono chunk, at the level of sample values. -/
def decodeAudioData (data : List ℤ) : List ℚ := data.map decodeSample

/-- The playback scheduling loop of onmessage (lines 140, 158 and 159): for
each arriving chunk, given the output clock reading at processing time and
the decoded buffer duration, the cursor first catches up to the clock, the
buffer is scheduled to start exactly at the cursor, and the cursor then
advances by the duration.  Input: list of pairs of clock reading and
duration; output: list of pairs of scheduled start and duration. -/
def scheduleChunks (nextStart : ℚ) : List (ℚ × ℚ) → List (ℚ × ℚ)
  | [] => []
  | c :: rest =>
    (max nextStart c.1, c.2) :: scheduleChunks (max nextStart c.1 + c.2) rest

/-- The mutable refs and state of the main component that close, disconnect
and the audio branch of onmessage read and write.  Boolean fields record
whether the corresponding ref is non-null; streamTracks records the number
of tracks of the media stream when one is held. -/
structure AppState where
  connectionState : ConnectionState
  sessionRef : Bool
  inputCtxRef : Bool
  outputCtxRef : Bool
  streamTracks : Option Nat
  nextStart : ℚ
  sourcesCount : Nat
  isSpeaking : Bool
  volumeLevel : ℚ
deriving DecidableEq

/-- Resource release actions that disconnect can perform. -/
inductive ReleaseEvent
  | sessionClose
  | inputCtxClose
  | outputCtxClose
  | trackStop (i : Nat)
deriving DecidableEq

/-- disconnect (lines 242 to 259): close the session if the session ref is
set, close each audio context whose ref is set, stop every track of the
held stream, then reset the visible state.  The function mirrors the source
exactly: none of the refs is cleared, so they keep their values. -/
def disconnect (s : AppState) : AppState × List ReleaseEvent :=
  (({ s with connectionState := ConnectionState.DISCONNECTED,
             isSpeaking := false, volumeLevel := 0 }),
   (if s.sessionRef then [ReleaseEvent.sessionClose] else [])
     ++ (if s.inputCtxRef then [ReleaseEvent.inputCtxClose] else [])
     ++ (if s.outputCtxRef then [ReleaseEvent.outputCtxClose] else [])
     ++ (match s.streamTracks with
         | some k => (List.range k).map ReleaseEvent.trackStop
         | none => []))

/-- The onclose callback (lines 222 to 225): it only resets the connection
state and the speaking flag; no ref is cleared. -/
def onClose (s : AppState) : AppState :=
  { s with connectionState := ConnectionState.DISCONNECTED, isSpeaking := false }

/-- The audio branch of onmessage (lines 134 to 161) for one arriving chunk,
given the output clock reading and the decoded duration: the speaking flag
is set unconditionally, and if the output context ref is non-null the
buffer is scheduled at the caught-up cursor, which then advances; a null
ref skips the scheduling. -/
def onAudioChunk (s : AppState) (now dur : ℚ) : AppState :=
  let s1 := { s with isSpeaking := true }
  if s1.outputCtxRef then
    { s1 with nextStart := max s1.nextStart now + dur,
              sourcesCount := s1.sourcesCount + 1 }
  else s1

/-- Speaker roles, from types.ts. -/
inductive Role
  | user
  | model
  | system
deriving DecidableEq

/-- A committed transcript entry, from types.ts; the timestamp is kept as a
string. -/
structure ChatMessage where
  role : Role
  text : String
  timestamp : String
deriving DecidableEq

/-- The transcript-relevant content of one inbound server message: optional
input and output transcription deltas and the turn completion flag. -/
structure TranscriptMsg where
  inputTranscription : Option String
  outputTranscription : Option String
  turnComplete : Bool
deriving DecidableEq

/-- The two accumulation buffers and the transcript log. -/
structure TranscriptState where
  currentInput : String
  currentOutput : String
  transcripts : List ChatMessage
deriving DecidableEq

/-- Lines 164 to 170 of onmessage: each present delta is appended to the
buffer of its role. -/
def applyDeltas (s : TranscriptState) (m : TranscriptMsg) : TranscriptState :=
  let s1 := match m.inputTranscription with
    | some t => { s with currentInput := s.currentInput ++ t }
    | none => s
  match m.outputTranscription with
  | some t => { s1 with currentOutput := s1.currentOutput ++ t }
  | none => s1

/-- Lines 173 to 190 of onmessage: on turn completion, each non-empty buffer
is committed as one ChatMessage, user first, then cleared. -/
def commitTurn (now : String) (s : TranscriptState) : TranscriptState :=
  let s1 :=
    if s.currentInput = "" then s
    else { s with
             transcripts := s.transcripts ++ [⟨Role.user, s.currentInput, now⟩],
             currentInput := "" }
  if s1.currentOutput = "" then s1
  else { s1 with
           transcripts := s1.transcripts ++ [⟨Role.model, s1.currentOutput, now⟩],
           currentOutput := "" }

/-- One inbound message through the transcript part of onmessage: deltas are
applied first, then the turn completion commit runs if flagged. -/
def onTranscriptMsg (now : String) (s : TranscriptState) (m : TranscriptMsg) :
    TranscriptState :=
  let s1 := applyDeltas s m
  if m.turnComplete then commitTurn now s1 else s1

/-- A sequence of inbound messages processed in arrival order. -/
def processMsgs (now : String) : TranscriptState → List TranscriptMsg → TranscriptState
  | s, [] => s
  | s, m :: ms => processMsgs now (onTranscriptMsg now s m) ms

/-- The in-order concatenation of the deltas a message list carries for one
role, the reference value the transcript property compares against. -/
def deltaConcat (f : TranscriptMsg → Option String) : List TranscriptMsg → String
  | [] => ""
  | m :: ms => (match f m with | some t => t | none => "") ++ deltaConcat f ms

/-- The argument mapping of the declared tool, all five required fields. -/
structure CustomerArgs where
  fullName : String
  phoneNumber : String
  monthlyIncome : String
  age : String
  insuranceType : String
deriving DecidableEq

/-- A captured customer record, from types.ts. -/
structure CustomerDetails where
  fullName : String
  phoneNumber : String
  monthlyIncome : String
  age : String
  insuranceType : String
  timestamp : String
deriving DecidableEq

/-- One inbound tool invocation: correlation id, function name, arguments. -/
structure FunctionCall where
  id : String
  name : String
  args : CustomerArgs
deriving DecidableEq

/-- A tool result as built in onmessage (lines 208 to 214); the response
field holds the result string of the response object. -/
structure ToolResult where
  id : String
  name : String
  response : String
deriving DecidableEq

/-- The record built by the saveCustomerDetails branch (lines 197 to 204):
the five argument fields plus the capture timestamp. -/
def mkRecord (now : String) (a : CustomerArgs) : CustomerDetails :=
  ⟨a.fullName, a.phoneNumber, a.monthlyIncome, a.age, a.insuranceType, now⟩

/-- The tool-call branch of onmessage (lines 193 to 220): the batch is mapped
in order; a saveCustomerDetails invocation appends one record and yields the
success result, any other name yields the Unknown function result; the
result list is what sendToolResponse transmits, in batch order. -/
def processCalls (now : String) :
    List FunctionCall → List CustomerDetails → List ToolResult × List CustomerDetails
  | [], data => ([], data)
  | fc :: rest, data =>
    if fc.name = "saveCustomerDetails" then
      let out := processCalls now rest (data ++ [mkRecord now fc.args])
      (⟨fc.id, fc.name, "Success: Customer details saved."⟩ :: out.1, out.2)
    else
      let out := processCalls now rest data
      (⟨fc.id, fc.name, "Unknown function"⟩ :: out.1, out.2)

/-- A field cell as interpolated in exportUtils: the value between double
quotes, verbatim. -/
def csvField (s : String) : String := "\"" ++ s ++ "\""

/-- Character-level replacement of every double quote by a doubled one. -/
def escQ : List Char → List Char
  | [] => []
  | c :: rest => if c = '"' then '"' :: '"' :: escQ rest else c :: escQ rest

/-- The quote-doubling replace applied to the transcript Message field
(exportUtils.ts, line 26). -/
def escapeQuotes (s : String) : String := ⟨escQ s.data⟩

/-- Checks that every double quote in a character list occurs as one of an
adjacent pair: the escaping property the export claim asserts of field
contents. -/
def quotesDoubledB : List Char → Bool
  | [] => true
  | c :: rest =>
    if c = '"' then
      match rest with
      | [] => false
      | d :: rest2 => if d = '"' then quotesDoubledB rest2 else false
    else quotesDoubledB rest

/-- Role rendering used by the transcript row interpolation. -/
def roleString : Role → String
  | Role.user => "user"
  | Role.model => "model"
  | Role.system => "system"

/-- One customer row of exportToCSV (exportUtils.ts, lines 7 to 14): each
field is interpolated verbatim between double quotes, with no escaping. -/
def customerRow (c : CustomerDetails) : List String :=
  [csvField c.fullName, csvField c.phoneNumber, csvField c.monthlyIncome,
   csvField c.age, csvField c.insuranceType, csvField c.timestamp]

/-- One transcript row (exportUtils.ts, lines 23 to 27): timestamp and role
verbatim between quotes, the message quote-escaped and then quoted. -/
def transcriptRow (t : ChatMessage) : List String :=
  [csvField t.timestamp, csvField (roleString t.role),
   csvField (escapeQuotes t.text)]

/-- Customer artifact header line values. -/
def customerHeaders : List String :=
  ["Full Name", "Phone", "Income", "Age", "Insurance Type", "Timestamp"]

/-- Transcript artifact header line values. -/
def transcriptHeaders : List String := ["Timestamp", "Role", "Message"]

/-- The customer artifact: header line then one line per record, cells
joined by commas, lines by newlines. -/
def customerCSV (data : List CustomerDetails) : String :=
  String.intercalate "\n"
    (String.intercalate "," customerHeaders ::
      data.map (fun c => String.intercalate "," (customerRow c)))

/-- The transcript artifact: header line then one line per message. -/
def transcriptCSV (ts : List ChatMessage) : String :=
  String.intercalate "\n"
    (String.intercalate "," transcriptHeaders ::
      ts.map (fun t => String.intercalate "," (transcriptRow t)))

/-- exportToCSV (exportUtils.ts, lines 3 to 32): each artifact is produced
only when its collection is non-empty. -/
def exportToCSV (customerData : List CustomerDetails) (transcript : List ChatMessage) :
    Option String × Option String :=
  ((if customerData.length > 0 then some (customerCSV customerData) else none),
   (if transcript.length > 0 then some (transcriptCSV transcript) else none))

/-! ## Theorems -/

/-- C1: for every sequence of inbound audio chunks, each given by the output
clock reading at its processing moment and its decoded duration, the start
at which its buffer is scheduled is at least that clock reading and at least
the end of the immediately previously scheduled chunk, and the first start
is at least the incoming cursor; durations are passed through unchanged.
No chunk is scheduled in the past and no two scheduled buffers overlap. -/
theorem c1_playback_schedule_sound (nextStart : ℚ) (chunks : List (ℚ × ℚ)) :
    List.Forall₂ (fun c sd => c.1 ≤ sd.1 ∧ sd.2 = c.2) chunks
      (scheduleChunks nextStart chunks) ∧
    List.Chain' (fun a b => a.1 + a.2 ≤ b.1) (scheduleChunks nextStart chunks) ∧
    ∀ sd ∈ (scheduleChunks nextStart chunks).head?, nextStart ≤ sd.1 := by
  induction chunks generalizing nextStart with
  | nil => simp [scheduleChunks]
  | cons c rest ih =>
    obtain ⟨ih1, ih2, ih3⟩ := ih (max nextStart c.1 + c.2)
    refine ⟨List.Forall₂.cons ⟨le_max_right _ _, rfl⟩ ih1, ?_, ?_⟩
    · rw [scheduleChunks]
      exact List.chain'_cons'.mpr ⟨ih3, ih2⟩
    · intro sd hsd
      rw [scheduleChunks] at hsd
      simp only [List.head?_cons, Option.mem_def, Option.some.injEq] at hsd
      subst hsd
      exact le_max_left _ _

/-- C1 witness: a concrete run of the scheduler. -/
theorem c1_playback_schedule_sound_witness :
    List.Chain' (fun a b => a.1 + a.2 ≤ b.1)
      (scheduleChunks 0 [((0 : ℚ), (1 : ℚ)), (5, 2), (3, 1)]) :=
  (c1_playback_schedule_sound 0 [((0 : ℚ), (1 : ℚ)), (5, 2), (3, 1)]).2.1

/-- C3: for every inbound batch of tool invocations, the result list sent
back has exactly one entry per invocation, and position by position it
carries the same correlation id and the same function name, in the original
batch order. -/
theorem c3_batch_results (now : String) (fcs : List FunctionCall)
    (data : List CustomerDetails) :
    (processCalls now fcs data).1.length = fcs.length ∧
    (processCalls now fcs data).1.map ToolResult.id = fcs.map FunctionCall.id ∧
    (processCalls now fcs data).1.map ToolResult.name = fcs.map FunctionCall.name := by
  induction fcs generalizing data with
  | nil => simp [processCalls]
  | cons fc rest ih =>
    obtain ⟨ihl, ihi, ihn⟩ := ih (data ++ [mkRecord now fc.args])
    obtain ⟨ihl2, ihi2, ihn2⟩ := ih data
    by_cases h : fc.name = "saveCustomerDetails" <;>
      simp [processCalls, h, ihl, ihi, ihn, ihl2, ihi2, ihn2]

/-- C3 witness: a concrete two-invocation batch. -/
theorem c3_batch_results_witness :
    (processCalls "t" [⟨"a", "saveCustomerDetails", ⟨"n", "p", "i", "g", "T"⟩⟩,
        ⟨"b", "other", ⟨"n", "p", "i", "g", "T"⟩⟩] []).1.map ToolResult.id =
      [⟨"a", "saveCustomerDetails", (⟨"n", "p", "i", "g", "T"⟩ : CustomerArgs)⟩,
        (⟨"b", "other", ⟨"n", "p", "i", "g", "T"⟩⟩ : FunctionCall)].map FunctionCall.id :=
  (c3_batch_results "t" _ []).2.1

/-- C5: a saveCustomerDetails invocation carrying the five required fields
appends exactly one record whose fields equal the invocation arguments and
whose timestamp is the non-empty capture time, and sends back exactly one
success result bearing the invocation id and name. -/
theorem c5_save_customer (now : String) (fc : FunctionCall)
    (data : List CustomerDetails)
    (hname : fc.name = "saveCustomerDetails") (hnow : now ≠ "") :
    processCalls now [fc] data =
      ([⟨fc.id, fc.name, "Success: Customer details saved."⟩],
        data ++ [mkRecord now fc.args]) ∧
    (mkRecord now fc.args).fullName = fc.args.fullName ∧
    (mkRecord now fc.args).phoneNumber = fc.args.phoneNumber ∧
    (mkRecord now fc.args).monthlyIncome = fc.args.monthlyIncome ∧
    (mkRecord now fc.args).age = fc.args.age ∧
    (mkRecord now fc.args).insuranceType = fc.args.insuranceType ∧
    (mkRecord now fc.args).timestamp ≠ "" := by
  refine ⟨by simp [processCalls, hname], rfl, rfl, rfl, rfl, rfl, hnow⟩

/-- C5 witness: a concrete invocation with all five fields. -/
theorem c5_save_customer_witness :
    processCalls "2024-01-01" [⟨"id1", "saveCustomerDetails",
        ⟨"John Doe", "555", "1000", "30", "Health"⟩⟩] [] =
      ([⟨"id1", "saveCustomerDetails", "Success: Customer details saved."⟩],
        [] ++ [mkRecord "2024-01-01" ⟨"John Doe", "555", "1000", "30", "Health"⟩]) ∧
    (mkRecord "2024-01-01" ⟨"John Doe", "555", "1000", "30", "Health"⟩).timestamp ≠ "" :=
  ⟨(c5_save_customer "2024-01-01"
      ⟨"id1", "saveCustomerDetails", ⟨"John Doe", "555", "1000", "30", "Health"⟩⟩ []
      rfl (by decide)).1,
    (c5_save_customer "2024-01-01"
      ⟨"id1", "saveCustomerDetails", ⟨"John Doe", "555", "1000", "30", "Health"⟩⟩ []
      rfl (by decide)).2.2.2.2.2.2⟩

/-- C6: an invocation naming any unregistered function yields exactly the
explicit Unknown function result bearing its id and name, and appends no
record to the captured-data collection. -/
theorem c6_unknown_function (now : String) (fc : FunctionCall)
    (data : List CustomerDetails)
    (hname : fc.name ≠ "saveCustomerDetails") :
    processCalls now [fc] data = ([⟨fc.id, fc.name, "Unknown function"⟩], data) := by
  simp [processCalls, hname]

/-- C6 witness: a concrete unregistered invocation. -/
theorem c6_unknown_function_witness :
    processCalls "t" [⟨"id9", "doSomethingElse", ⟨"n", "p", "i", "g", "T"⟩⟩] [] =
      ([⟨"id9", "doSomethingElse", "Unknown function"⟩], []) :=
  c6_unknown_function "t" ⟨"id9", "doSomethingElse", ⟨"n", "p", "i", "g", "T"⟩⟩ []
    (by decide)

/-- C10: every sample, clamped before conversion, encodes into the signed
16-bit range, and the boundary inputs -1 and 1 map to -32768 and 32767. -/
theorem c10_encode_range :
    (∀ x : ℚ, -32768 ≤ encodeSample x ∧ encodeSample x ≤ 32767) ∧
    encodeSample (-1) = -32768 ∧ encodeSample 1 = 32767 := by
  refine ⟨fun x => ?_, ?_, ?_⟩
  · have h1 : -1 ≤ clampSample x := le_max_left _ _
    have h2 : clampSample x ≤ 1 := max_le (by norm_num) (min_le_left _ _)
    unfold encodeSample truncQ
    by_cases hs : clampSample x < 0
    · rw [if_pos hs, if_neg (not_le.mpr (mul_neg_of_neg_of_pos hs (by norm_num)))]
      constructor
      · have hle : ((-32768 : ℤ) : ℚ) ≤ clampSample x * 32768 := by
          push_cast
          nlinarith
        simpa using Int.ceil_le_ceil hle
      · have hle : clampSample x * 32768 ≤ ((0 : ℤ) : ℚ) := by
          push_cast
          nlinarith
        have := Int.ceil_le_ceil hle
        simp at this
        omega
    · rw [if_neg hs]
      have hs0 : 0 ≤ clampSample x := not_lt.mp hs
      rw [if_pos (by nlinarith)]
      constructor
      · have hle : ((0 : ℤ) : ℚ) ≤ clampSample x * 32767 := by
          push_cast
          nlinarith
        have := Int.floor_le_floor hle
        simp at this
        omega
      · have hle : clampSample x * 32767 ≤ ((32767 : ℤ) : ℚ) := by
          push_cast
          nlinarith
        simpa using Int.floor_le_floor hle
  · norm_num [encodeSample, clampSample, truncQ, Int.ceil_eq_iff]
  · norm_num [encodeSample, clampSample, truncQ, Int.floor_eq_iff]

/-- C10 witness: concrete out-of-range and boundary inputs. -/
theorem c10_encode_range_witness :
    (-32768 ≤ encodeSample (7 / 2) ∧ encodeSample (7 / 2) ≤ 32767) ∧
    (-32768 ≤ encodeSample (-5) ∧ encodeSample (-5) ≤ 32767) :=
  ⟨c10_encode_range.1 (7 / 2), c10_encode_range.1 (-5)⟩

/-- One-sample round trip bound: for an in-range sample the decode of its
encode differs from it by less than two quantization steps; negative
samples stay within one step, nonnegative samples can exceed one step
because the encoder scales by 32767 while the decoder divides by 32768. -/
theorem roundTrip_sample_close (x : ℚ) (h1 : -1 ≤ x) (h2 : x ≤ 1) :
    |decodeSample (encodeSample x) - x| ≤ 2 / 32768 := by
  have hc : clampSample x = x := by
    unfold clampSample
    rw [min_eq_right h2, max_eq_right h1]
  rw [encodeSample, hc]
  by_cases hx : x < 0
  · have hneg : x * 32768 < 0 := mul_neg_of_neg_of_pos hx (by norm_num)
    rw [if_pos hx, truncQ, if_neg (not_le.mpr hneg), decodeSample]
    have hle : x * 32768 ≤ (⌈x * 32768⌉ : ℚ) := Int.le_ceil _
    have hlt : (⌈x * 32768⌉ : ℚ) < x * 32768 + 1 := Int.ceil_lt_add_one _
    rw [abs_le]
    constructor <;> linarith
  · have hx0 : 0 ≤ x := not_lt.mp hx
    have hpos : 0 ≤ x * 32767 := by nlinarith
    rw [if_neg hx, truncQ, if_pos hpos, decodeSample]
    have hfl : (⌊x * 32767⌋ : ℚ) ≤ x * 32767 := Int.floor_le _
    have hfl2 : x * 32767 < (⌊x * 32767⌋ : ℚ) + 1 := Int.lt_floor_add_one _
    rw [abs_le]
    constructor <;> linarith

/-- C4 amended: encoding an in-range sample sequence with createBlob and
decoding it back through the decodeAudioData normalization reproduces each
sample within two quantization steps, bounded by 2 / 32768. -/
theorem c4_roundtrip_amended (samples : List ℚ)
    (h : ∀ x ∈ samples, -1 ≤ x ∧ x ≤ 1) :
    List.Forall₂ (fun x y => |y - x| ≤ 2 / 32768) samples
      (decodeAudioData (createBlob samples)) := by
  induction samples with
  | nil => simp [createBlob, decodeAudioData]
  | cons a l ih =>
    obtain ⟨ha1, ha2⟩ := h a (by simp)
    simp only [createBlob, decodeAudioData, List.map_cons]
    exact List.Forall₂.cons (roundTrip_sample_close a ha1 ha2)
      (by simpa [createBlob, decodeAudioData] using
        ih fun x hx => h x (List.mem_cons_of_mem _ hx))

/-- C4 witness: the bound holds on a concrete in-range sequence. -/
theorem c4_roundtrip_amended_witness :
    List.Forall₂ (fun x y => |y - x| ≤ 2 / 32768) [(1 : ℚ) / 2, -1]
      (decodeAudioData (createBlob [(1 : ℚ) / 2, -1])) :=
  c4_roundtrip_amended [(1 : ℚ) / 2, -1] (by norm_num)

/-- C4 counterexample: the claimed one-step bound of 1 / 32768 fails for the
in-range sample 65535 / 65536, which encodes to 32766 and decodes to
32766 / 32768, an error of 3 / 65536. -/
theorem c4_roundtrip_counterexample :
    ¬ List.Forall₂ (fun x y => |y - x| ≤ 1 / 32768) [(65535 : ℚ) / 65536]
      (decodeAudioData (createBlob [(65535 : ℚ) / 65536])) := by
  have h : encodeSample (65535 / 65536) = 32766 := by
    norm_num [encodeSample, clampSample, truncQ, Int.floor_eq_iff]
  simp only [createBlob, decodeAudioData, List.map_cons, List.map_nil, h,
    List.forall₂_cons, List.forall₂_nil_right_iff, and_true]
  rw [decodeSample, abs_le]
  norm_num

/-- Processing a concatenation of message lists processes the parts in
order. -/
theorem processMsgs_append (now : String) (s : TranscriptState)
    (ms1 ms2 : List TranscriptMsg) :
    processMsgs now s (ms1 ++ ms2) = processMsgs now (processMsgs now s ms1) ms2 := by
  induction ms1 generalizing s with
  | nil => rfl
  | cons m ms ih => simp [processMsgs, ih]

/-- deltaConcat distributes over list concatenation. -/
theorem deltaConcat_append (f : TranscriptMsg → Option String)
    (ms1 ms2 : List TranscriptMsg) :
    deltaConcat f (ms1 ++ ms2) = deltaConcat f ms1 ++ deltaConcat f ms2 := by
  induction ms1 with
  | nil => simp [deltaConcat, String.empty_append]
  | cons m ms ih => simp [deltaConcat, ih, String.append_assoc]

/-- Messages without a turn completion only extend the buffers, by exactly
the in-order concatenation of their deltas; the log is untouched. -/
theorem processMsgs_deltas_only (now : String) (ms : List TranscriptMsg) :
    ∀ s : TranscriptState, (∀ m ∈ ms, m.turnComplete = false) →
      processMsgs now s ms =
        ⟨s.currentInput ++ deltaConcat TranscriptMsg.inputTranscription ms,
         s.currentOutput ++ deltaConcat TranscriptMsg.outputTranscription ms,
         s.transcripts⟩ := by
  induction ms with
  | nil =>
    intro s _
    cases s
    simp [processMsgs, deltaConcat, String.append_empty]
  | cons m ms ih =>
    intro s h
    have hm := h m (List.mem_cons_self _ _)
    rw [processMsgs, ih _ (fun m' hm' => h m' (List.mem_cons_of_mem _ hm'))]
    rw [onTranscriptMsg]
    simp only [hm, Bool.false_eq_true, if_false]
    cases hi : m.inputTranscription <;> cases ho : m.outputTranscription <;>
      simp [applyDeltas, deltaConcat, hi, ho, String.append_assoc]

/-- C2: for every turn completion, with both buffers empty at the previous
commit (or session start) and any run of delta-only messages before the
completing message, each role with a non-empty accumulated text commits
exactly one ChatMessage whose text is the exact in-order concatenation of
that role's deltas, user first, and both buffers are empty afterwards; a
role with no accumulated text commits nothing. -/
theorem c2_turn_commit (now : String) (s : TranscriptState)
    (ms : List TranscriptMsg) (it ot : Option String)
    (hin : s.currentInput = "") (hout : s.currentOutput = "")
    (h : ∀ m ∈ ms, m.turnComplete = false) :
    processMsgs now s (ms ++ [⟨it, ot, true⟩]) =
      ⟨"", "",
        s.transcripts
          ++ (if deltaConcat TranscriptMsg.inputTranscription (ms ++ [⟨it, ot, true⟩]) = ""
              then []
              else [⟨Role.user,
                deltaConcat TranscriptMsg.inputTranscription (ms ++ [⟨it, ot, true⟩]),
                now⟩])
          ++ (if deltaConcat TranscriptMsg.outputTranscription (ms ++ [⟨it, ot, true⟩]) = ""
              then []
              else [⟨Role.model,
                deltaConcat TranscriptMsg.outputTranscription (ms ++ [⟨it, ot, true⟩]),
                now⟩])⟩ := by
  rw [processMsgs_append, processMsgs_deltas_only now ms s h, hin, hout]
  simp only [processMsgs, onTranscriptMsg, if_true, deltaConcat_append]
  have hsingle : ∀ f : TranscriptMsg → Option String,
      deltaConcat f [(⟨it, ot, true⟩ : TranscriptMsg)] =
        (match f ⟨it, ot, true⟩ with | some t => t | none => "") := by
    intro f
    simp [deltaConcat, String.append_empty]
  rw [hsingle, hsingle]
  cases it <;> cases ot <;>
    · simp only [applyDeltas, String.empty_append, String.append_empty, commitTurn]
      split_ifs <;> simp_all [List.append_assoc]

/-- C2 witness: the scenario of two user deltas followed by a turn
completion commits exactly one user message reading Hello there. -/
theorem c2_turn_commit_witness :
    processMsgs "t0" ⟨"", "", []⟩
      [⟨some "Hello", none, false⟩, ⟨some " there", none, false⟩, ⟨none, none, true⟩] =
      ⟨"", "", [⟨Role.user, "Hello there", "t0"⟩]⟩ :=
  (c2_turn_commit "t0" ⟨"", "", []⟩
      [⟨some "Hello", none, false⟩, ⟨some " there", none, false⟩] none none rfl rfl
      (by decide)).trans (by decide)

/-- C7 counterexample: starting from a connected state holding every
resource, two successive disconnect calls issue the close of the input
audio context twice, not exactly once across the two calls, because the
refs are never cleared. -/
theorem c7_disconnect_counterexample :
    (((disconnect ⟨ConnectionState.CONNECTED, true, true, true, some 1, 0, 0, false, 0⟩).2 ++
        (disconnect
          (disconnect ⟨ConnectionState.CONNECTED, true, true, true, some 1, 0, 0,
            false, 0⟩).1).2).count ReleaseEvent.inputCtxClose = 2) ∧
    ¬ (((disconnect ⟨ConnectionState.CONNECTED, true, true, true, some 1, 0, 0, false, 0⟩).2 ++
        (disconnect
          (disconnect ⟨ConnectionState.CONNECTED, true, true, true, some 1, 0, 0,
            false, 0⟩).1).2).count ReleaseEvent.inputCtxClose = 1) := by
  decide

/-- C7 amended: both disconnect calls end in the DISCONNECTED state with the
speaking flag cleared and the volume reset, and each call releases each held
resource exactly once within that call; since no ref is cleared, the second
call issues exactly the same release actions again, so each resource is
released once per call, twice across the two calls. -/
theorem c7_disconnect_amended (s : AppState) :
    (disconnect s).1.connectionState = ConnectionState.DISCONNECTED ∧
    (disconnect (disconnect s).1).1.connectionState = ConnectionState.DISCONNECTED ∧
    (disconnect s).1.isSpeaking = false ∧
    (disconnect s).1.volumeLevel = 0 ∧
    (disconnect (disconnect s).1).2 = (disconnect s).2 ∧
    ((disconnect s).2.count ReleaseEvent.sessionClose = if s.sessionRef then 1 else 0) ∧
    ((disconnect s).2.count ReleaseEvent.inputCtxClose = if s.inputCtxRef then 1 else 0) ∧
    ((disconnect s).2.count ReleaseEvent.outputCtxClose = if s.outputCtxRef then 1 else 0) := by
  obtain ⟨cs, sr, ir, orf, st, ns, sc, sp, vol⟩ := s
  refine ⟨rfl, rfl, rfl, rfl, rfl, ?_, ?_, ?_⟩ <;>
    cases sr <;> cases ir <;> cases orf <;> cases st <;>
      simp [disconnect, List.count_append, List.count_cons, List.count_eq_zero,
        List.mem_map]

/-- C7 witness for the amended statement at a concrete connected state. -/
theorem c7_disconnect_amended_witness :
    (disconnect ⟨ConnectionState.CONNECTING, true, true, false, none, 0, 0, true, 5⟩).1.connectionState =
      ConnectionState.DISCONNECTED :=
  (c7_disconnect_amended ⟨ConnectionState.CONNECTING, true, true, false, none, 0, 0, true, 5⟩).1

/-- C8 counterexample: a chunk that arrives after a closed event is not
dropped: the output context ref is still set, so the buffer is scheduled,
the speaking flag is set and the cursor moves. -/
theorem c8_post_close_counterexample :
    (onAudioChunk (onClose ⟨ConnectionState.CONNECTED, true, true, true, some 1, 0, 0,
        false, 0⟩) 1 2).sourcesCount = 1 ∧
    (onAudioChunk (onClose ⟨ConnectionState.CONNECTED, true, true, true, some 1, 0, 0,
        false, 0⟩) 1 2).isSpeaking = true ∧
    (onAudioChunk (onClose ⟨ConnectionState.CONNECTED, true, true, true, some 1, 0, 0,
        false, 0⟩) 1 2).nextStart ≠ 0 := by
  refine ⟨rfl, rfl, ?_⟩
  norm_num [onAudioChunk, onClose]

/-- C8 amended: a chunk arriving after a closed event is processed exactly
as while connected, because the handler only tests the output context ref,
which the closed event does not clear: the speaking flag is set, the buffer
is scheduled at the caught-up cursor and the cursor advances by the
duration. -/
theorem c8_post_close_amended (s : AppState) (now dur : ℚ)
    (h : s.outputCtxRef = true) :
    onAudioChunk (onClose s) now dur =
      { s with connectionState := ConnectionState.DISCONNECTED,
               isSpeaking := true,
               nextStart := max s.nextStart now + dur,
               sourcesCount := s.sourcesCount + 1 } := by
  simp [onAudioChunk, onClose, h]

/-- C8 witness for the amended statement at a concrete state. -/
theorem c8_post_close_amended_witness :
    onAudioChunk (onClose ⟨ConnectionState.CONNECTED, true, true, true, some 1, 0, 0,
        false, 0⟩) 1 2 =
      { (⟨ConnectionState.CONNECTED, true, true, true, some 1, 0, 0, false, 0⟩ : AppState) with
          connectionState := ConnectionState.DISCONNECTED,
          isSpeaking := true,
          nextStart := max (0 : ℚ) 1 + 2,
          sourcesCount := 0 + 1 } :=
  c8_post_close_amended
    ⟨ConnectionState.CONNECTED, true, true, true, some 1, 0, 0, false, 0⟩ 1 2 rfl

/-- Quote-escaping always yields a character list in which every double
quote occurs as one of an adjacent pair. -/
theorem quotesDoubledB_escQ (l : List Char) : quotesDoubledB (escQ l) = true := by
  induction l with
  | nil => rfl
  | cons c rest ih =>
    by_cases h : c = '"'
    · simp [escQ, h, quotesDoubledB, ih]
    · rw [escQ, if_neg h, quotesDoubledB.eq_def]
      simp [h, ih]

/-- C9 counterexample: a customer record whose full name contains a double
quote is emitted verbatim between quotes, with the internal quote not
doubled, so the customer artifact violates the claimed escaping. -/
theorem c9_csv_quoting_counterexample :
    (customerRow ⟨"a\"b", "p", "i", "20", "Health", "ts"⟩).head? =
      some (csvField "a\"b") ∧
    csvField "a\"b" ≠ csvField (escapeQuotes "a\"b") ∧
    quotesDoubledB ("a\"b").data = false := by
  refine ⟨rfl, ?_, rfl⟩
  decide

/-- C9 amended: every field value in both artifacts is wrapped in double
quotes, but only the transcript Message field has its internal double
quotes escaped by doubling; customer fields, like the transcript timestamp
and role, are embedded verbatim. -/
theorem c9_csv_quoting_amended (c : CustomerDetails) (t : ChatMessage) :
    (∀ cell ∈ customerRow c ++ transcriptRow t, ∃ v, cell = "\"" ++ v ++ "\"") ∧
    quotesDoubledB (escapeQuotes t.text).data = true ∧
    (transcriptRow t).getLast? = some (csvField (escapeQuotes t.text)) ∧
    (customerRow c).head? = some (csvField c.fullName) := by
  refine ⟨?_, quotesDoubledB_escQ t.text.data, rfl, rfl⟩
  intro cell h
  simp only [customerRow, transcriptRow, csvField, List.mem_append, List.mem_cons,
    List.not_mem_nil, or_false] at h
  rcases h with (h | h | h | h | h | h) | h | h | h <;> exact ⟨_, h⟩

/-- C9 witness for the amended statement at concrete rows. -/
theorem c9_csv_quoting_amended_witness :
    quotesDoubledB (escapeQuotes
      (⟨Role.user, "say \"hi\"", "ts"⟩ : ChatMessage).text).data = true :=
  (c9_csv_quoting_amended ⟨"n", "p", "i", "20", "Health", "ts"⟩
    ⟨Role.user, "say \"hi\"", "ts"⟩).2.1
